import Mathlib

/-!
# NewCode-Geo: verification of the coordinate codec

Shallow embedding of `src/main.py` (DiamondGotCat/NewCode-Geo).
Python strings are modelled as `List Char`; the IEEE-754 float arithmetic of
the source is modelled by exact rational arithmetic over `ℚ`; every
`raise ValueError` becomes an `Except GeoError` value.  The external
`geopy.distance.geodesic(...).meters` collaborator is a parameter of
`calculate_error`.
-/

/- Batteries marks the rational-number operations `@[irreducible]`, which
stops `decide` from evaluating concrete codec runs; reopen them. -/
set_option allowUnsafeReducibility true in
attribute [semireducible] Rat.mul Rat.add Rat.inv Rat.sub

namespace NewCodeGeo

/-- The fixed 29-symbol alphabet (`CHARSET` in the source). -/
def CHARSET : List Char :=
  ['A', 'B', 'C', 'D', 'E', 'F', 'G', 'H',
   'J', 'K', 'L', 'M', 'N', 'P', 'Q', 'R',
   'T', 'U', 'V', 'W', 'X', 'Y', '2', '3',
   '4', '6', '7', '8', '9']

/-- `BASE = len(CHARSET)`. -/
def BASE : Nat := CHARSET.length

/-- Position of a character in a list of characters, `none` when absent:
the lookup behaviour of the `CHAR_TO_INDEX` dictionary. -/
def charIndexIn : List Char → Char → Option Nat
  | [], _ => none
  | d :: ds, c => if c = d then some 0 else (charIndexIn ds c).map (· + 1)

/-- `CHAR_TO_INDEX[char]`: index of `char` in the alphabet. -/
def CHAR_TO_INDEX (c : Char) : Option Nat := charIndexIn CHARSET c

/-- `INDEX_TO_CHAR[idx]`.  The source dictionary would raise `KeyError` for
`idx ≥ 29`; every call site passes `n % BASE < 29`, so the total default
value is never reached. -/
def INDEX_TO_CHAR (i : Nat) : Char := CHARSET.getD i 'A'

/-- The loop of `int_to_base29`: `length` iterations of
`chars.append(INDEX_TO_CHAR[n % BASE]); n = n // BASE`,
least-significant digit first. -/
def int_to_base29_chars (n : Nat) : Nat → List Char
  | 0 => []
  | l + 1 => INDEX_TO_CHAR (n % BASE) :: int_to_base29_chars (n / BASE) l

/-- `int_to_base29(n, length)`: the accumulated digit characters, reversed
(most-significant digit first). -/
def int_to_base29 (n length : Nat) : List Char :=
  (int_to_base29_chars n length).reverse

/-- The failure values of the codec (`raise ValueError(...)` in the source):
the two `encode` range checks, the `decode` length check, and the invalid
character check of `base29_to_int`. -/
inductive GeoError where
  | latOutOfRange
  | lonOutOfRange
  | invalidLength
  | invalidSymbol (c : Char)
  deriving DecidableEq

instance {ε α : Type} [DecidableEq ε] [DecidableEq α] :
    DecidableEq (Except ε α) := fun x y =>
  match x, y with
  | .ok a, .ok b => decidable_of_iff (a = b) (by simp)
  | .error e, .error f => decidable_of_iff (e = f) (by simp)
  | .ok _, .error _ => .isFalse (by simp)
  | .error _, .ok _ => .isFalse (by simp)

/-- The loop of `base29_to_int`: fails on the first character outside the
alphabet, otherwise Horner accumulation `n = n * BASE + CHAR_TO_INDEX[char]`. -/
def base29_to_int_loop (n : Nat) : List Char → Except GeoError Nat
  | [] => .ok n
  | c :: rest =>
    match CHAR_TO_INDEX c with
    | none => .error (.invalidSymbol c)
    | some i => base29_to_int_loop (n * BASE + i) rest

/-- `base29_to_int(s)`. -/
def base29_to_int (s : List Char) : Except GeoError Nat :=
  base29_to_int_loop 0 s

/-- `lat_norm = (lat + 90) / 180`. -/
def lat_norm_of (lat : ℚ) : ℚ := (lat + 90) / 180

/-- `lon_norm = (lon + 180) / 360`. -/
def lon_norm_of (lon : ℚ) : ℚ := (lon + 180) / 360

/-- `lat_int = int(math.floor(lat_norm * (2**24 - 1)))`.  For validated
input the floor is nonnegative, so `Int.toNat` loses nothing. -/
def lat_int_of (lat : ℚ) : Nat := (⌊lat_norm_of lat * (2 ^ 24 - 1)⌋).toNat

/-- `lon_int = int(math.floor(lon_norm * (2**24 - 1)))`. -/
def lon_int_of (lon : ℚ) : Nat := (⌊lon_norm_of lon * (2 ^ 24 - 1)⌋).toNat

/-- `encode(lat, lon)`: validate the ranges, quantize each axis to 24 bits,
serialize each quantized integer as 5 base-29 symbols, latitude field first. -/
def encode (lat lon : ℚ) : Except GeoError (List Char) :=
  if ¬(-90 ≤ lat ∧ lat ≤ 90) then .error .latOutOfRange
  else if ¬(-180 ≤ lon ∧ lon ≤ 180) then .error .lonOutOfRange
  else .ok (int_to_base29 (lat_int_of lat) 5 ++ int_to_base29 (lon_int_of lon) 5)

/-- `decode(code)`: reject lengths other than 10, split into the two
5-symbol fields, parse each, and reverse the normalization. -/
def decode (code : List Char) : Except GeoError (ℚ × ℚ) :=
  if code.length ≠ 10 then .error .invalidLength
  else do
    let lat_int ← base29_to_int (code.take 5)
    let lon_int ← base29_to_int (code.drop 5)
    let lat_norm : ℚ := (lat_int : ℚ) / (2 ^ 24 - 1)
    let lon_norm : ℚ := (lon_int : ℚ) / (2 ^ 24 - 1)
    .ok (lat_norm * 180 - 90, lon_norm * 360 - 180)

/-- `calculate_error(lat, lon)`: encode, decode the result, and hand the
original and round-tripped coordinates to the external geodesic-distance
collaborator (`geodesic(original, decoded).meters`), passed here as the
parameter `geodesic`. -/
def calculate_error (geodesic : ℚ × ℚ → ℚ × ℚ → ℚ) (lat lon : ℚ) :
    Except GeoError ℚ := do
  let code ← encode lat lon
  let p ← decode code
  .ok (geodesic (lat, lon) p)

/-! ## Basic facts about the alphabet and the digit codec -/

lemma BASE_eq : BASE = 29 := rfl

lemma char_to_index_index_to_char : ∀ i < 29, CHAR_TO_INDEX (INDEX_TO_CHAR i) = some i := by
  decide

lemma index_to_char_mem : ∀ i < 29, INDEX_TO_CHAR i ∈ CHARSET := by
  decide

lemma charIndexIn_eq_none_iff (ds : List Char) (c : Char) :
    charIndexIn ds c = none ↔ c ∉ ds := by
  induction ds with
  | nil => simp [charIndexIn]
  | cons d ds ih =>
    by_cases h : c = d <;> simp [charIndexIn, h, ih, Option.map_eq_none]

lemma char_to_index_eq_none_iff (c : Char) :
    CHAR_TO_INDEX c = none ↔ c ∉ CHARSET :=
  charIndexIn_eq_none_iff CHARSET c

lemma base29_to_int_loop_append (acc : Nat) (xs ys : List Char) :
    base29_to_int_loop acc (xs ++ ys) =
      (base29_to_int_loop acc xs).bind fun m => base29_to_int_loop m ys := by
  induction xs generalizing acc with
  | nil => simp [base29_to_int_loop, Except.bind]
  | cons c rest ih =>
    simp only [List.cons_append, base29_to_int_loop]
    cases CHAR_TO_INDEX c with
    | none => simp [Except.bind]
    | some i => simp [ih]

lemma base29_to_int_loop_digits (l : Nat) :
    ∀ n acc, n < BASE ^ l →
      base29_to_int_loop acc ((int_to_base29_chars n l).reverse) =
        .ok (acc * BASE ^ l + n) := by
  induction l with
  | zero =>
    intro n acc h
    have : n = 0 := Nat.lt_one_iff.mp (by simpa using h)
    simp [this, int_to_base29_chars, base29_to_int_loop]
  | succ l ih =>
    intro n acc h
    have hdiv : n / BASE < BASE ^ l := by
      refine (Nat.div_lt_iff_lt_mul (by rw [BASE_eq]; omega)).mpr ?_
      rw [← pow_succ]
      exact h
    have hmod : n % BASE < 29 := Nat.mod_lt _ (by rw [BASE_eq]; omega)
    simp only [int_to_base29_chars, List.reverse_cons, base29_to_int_loop_append,
      ih (n / BASE) acc hdiv]
    simp only [base29_to_int_loop, char_to_index_index_to_char (n % BASE) hmod,
      Except.bind]
    have : (acc * BASE ^ l + n / BASE) * BASE + n % BASE =
        acc * BASE ^ (l + 1) + n := by
      rw [pow_succ, ← mul_assoc]
      rw [BASE_eq]
      omega
    rw [this]

lemma base29_to_int_int_to_base29 (n l : Nat) (h : n < BASE ^ l) :
    base29_to_int (int_to_base29 n l) = .ok n := by
  simpa [base29_to_int, int_to_base29] using base29_to_int_loop_digits l n 0 h

lemma int_to_base29_chars_length (n l : Nat) :
    (int_to_base29_chars n l).length = l := by
  induction l generalizing n with
  | zero => rfl
  | succ l ih => simp [int_to_base29_chars, ih]

lemma int_to_base29_length (n l : Nat) : (int_to_base29 n l).length = l := by
  simp [int_to_base29, int_to_base29_chars_length]

lemma int_to_base29_chars_mem (n l : Nat) :
    ∀ c ∈ int_to_base29_chars n l, c ∈ CHARSET := by
  induction l generalizing n with
  | zero => simp [int_to_base29_chars]
  | succ l ih =>
    intro c hc
    simp only [int_to_base29_chars, List.mem_cons] at hc
    rcases hc with h | h
    · exact h ▸ index_to_char_mem (n % BASE) (Nat.mod_lt _ (by decide))
    · exact ih (n / BASE) c h

lemma int_to_base29_mem (n l : Nat) :
    ∀ c ∈ int_to_base29 n l, c ∈ CHARSET := by
  intro c hc
  exact int_to_base29_chars_mem n l c (List.mem_reverse.mp hc)

lemma int_to_base29_chars_mod (l : Nat) :
    ∀ n, int_to_base29_chars (n % BASE ^ l) l = int_to_base29_chars n l := by
  induction l with
  | zero => intro n; rfl
  | succ l ih =>
    intro n
    have h₁ : n % BASE ^ (l + 1) % BASE = n % BASE :=
      Nat.mod_mod_of_dvd n (dvd_pow_self BASE (Nat.succ_ne_zero l))
    have h₂ : n % BASE ^ (l + 1) / BASE = n / BASE % BASE ^ l := by
      rw [pow_succ, mul_comm]
      exact Nat.mod_mul_right_div_self n BASE (BASE ^ l)
    simp only [int_to_base29_chars, h₁, h₂, ih (n / BASE)]

lemma base29_to_int_loop_error_elim {acc : Nat} {s : List Char} {e : GeoError}
    (h : base29_to_int_loop acc s = .error e) :
    ∃ c ∈ s, c ∉ CHARSET ∧ e = .invalidSymbol c := by
  induction s generalizing acc with
  | nil => simp [base29_to_int_loop] at h
  | cons c rest ih =>
    simp only [base29_to_int_loop] at h
    cases hc : CHAR_TO_INDEX c with
    | none =>
      rw [hc] at h
      refine ⟨c, List.mem_cons_self c rest, (char_to_index_eq_none_iff c).mp hc, ?_⟩
      cases h
      rfl
    | some i =>
      rw [hc] at h
      obtain ⟨d, hd, hd2, hd3⟩ := ih h
      exact ⟨d, List.mem_cons_of_mem c hd, hd2, hd3⟩

lemma base29_to_int_loop_ok (acc : Nat) (s : List Char)
    (h : ∀ c ∈ s, c ∈ CHARSET) :
    ∃ m, base29_to_int_loop acc s = .ok m := by
  induction s generalizing acc with
  | nil => exact ⟨acc, rfl⟩
  | cons c rest ih =>
    have hc : c ∈ CHARSET := h c (List.mem_cons_self c rest)
    cases hcc : CHAR_TO_INDEX c with
    | none => exact absurd ((char_to_index_eq_none_iff c).mp hcc) (not_not_intro hc)
    | some i =>
      obtain ⟨m, hm⟩ := ih (acc * BASE + i) fun d hd => h d (List.mem_cons_of_mem c hd)
      exact ⟨m, by simp [base29_to_int_loop, hcc, hm]⟩

lemma base29_to_int_loop_error_intro (acc : Nat) (s : List Char)
    (h : ∃ c ∈ s, c ∉ CHARSET) :
    ∃ c, base29_to_int_loop acc s = .error (.invalidSymbol c) := by
  induction s generalizing acc with
  | nil => simp at h
  | cons c rest ih =>
    cases hcc : CHAR_TO_INDEX c with
    | none => exact ⟨c, by simp [base29_to_int_loop, hcc]⟩
    | some i =>
      have hc : c ∈ CHARSET := by
        by_contra hmem
        rw [← char_to_index_eq_none_iff] at hmem
        simp [hmem] at hcc
      obtain ⟨d, hd, hd2⟩ := h
      rcases List.mem_cons.mp hd with rfl | hd'
      · exact absurd hc hd2
      · obtain ⟨d', hd'2⟩ := ih (acc * BASE + i) ⟨d, hd', hd2⟩
        exact ⟨d', by simp [base29_to_int_loop, hcc, hd'2]⟩

/-! ## Bounds on the quantized integers -/

lemma floor_lat_bounds {lat : ℚ} (h₁ : -90 ≤ lat) (h₂ : lat ≤ 90) :
    0 ≤ ⌊lat_norm_of lat * (2 ^ 24 - 1)⌋ ∧
      ⌊lat_norm_of lat * (2 ^ 24 - 1)⌋ ≤ 2 ^ 24 - 1 := by
  have hnorm₀ : 0 ≤ lat_norm_of lat := by
    unfold lat_norm_of
    have : (0 : ℚ) ≤ lat + 90 := by linarith
    positivity
  have hnorm₁ : lat_norm_of lat ≤ 1 := by
    unfold lat_norm_of
    rw [div_le_one (by norm_num)]
    linarith
  constructor
  · exact Int.floor_nonneg.mpr (by positivity)
  · have hle : lat_norm_of lat * (2 ^ 24 - 1) ≤ ((2 ^ 24 - 1 : ℤ) : ℚ) := by
      push_cast
      nlinarith
    calc ⌊lat_norm_of lat * (2 ^ 24 - 1)⌋ ≤ ⌊((2 ^ 24 - 1 : ℤ) : ℚ)⌋ :=
          Int.floor_le_floor hle
      _ = 2 ^ 24 - 1 := Int.floor_intCast _

lemma floor_lon_bounds {lon : ℚ} (h₁ : -180 ≤ lon) (h₂ : lon ≤ 180) :
    0 ≤ ⌊lon_norm_of lon * (2 ^ 24 - 1)⌋ ∧
      ⌊lon_norm_of lon * (2 ^ 24 - 1)⌋ ≤ 2 ^ 24 - 1 := by
  have hnorm₀ : 0 ≤ lon_norm_of lon := by
    unfold lon_norm_of
    have : (0 : ℚ) ≤ lon + 180 := by linarith
    positivity
  have hnorm₁ : lon_norm_of lon ≤ 1 := by
    unfold lon_norm_of
    rw [div_le_one (by norm_num)]
    linarith
  constructor
  · exact Int.floor_nonneg.mpr (by positivity)
  · have hle : lon_norm_of lon * (2 ^ 24 - 1) ≤ ((2 ^ 24 - 1 : ℤ) : ℚ) := by
      push_cast
      nlinarith
    calc ⌊lon_norm_of lon * (2 ^ 24 - 1)⌋ ≤ ⌊((2 ^ 24 - 1 : ℤ) : ℚ)⌋ :=
          Int.floor_le_floor hle
      _ = 2 ^ 24 - 1 := Int.floor_intCast _

lemma lat_int_le {lat : ℚ} (h₁ : -90 ≤ lat) (h₂ : lat ≤ 90) :
    lat_int_of lat ≤ 2 ^ 24 - 1 := by
  have h := (floor_lat_bounds h₁ h₂).2
  unfold lat_int_of
  omega

lemma lon_int_le {lon : ℚ} (h₁ : -180 ≤ lon) (h₂ : lon ≤ 180) :
    lon_int_of lon ≤ 2 ^ 24 - 1 := by
  have h := (floor_lon_bounds h₁ h₂).2
  unfold lon_int_of
  omega

lemma lat_int_lt_pow {lat : ℚ} (h₁ : -90 ≤ lat) (h₂ : lat ≤ 90) :
    lat_int_of lat < BASE ^ 5 :=
  lt_of_le_of_lt (lat_int_le h₁ h₂) (by decide)

lemma lon_int_lt_pow {lon : ℚ} (h₁ : -180 ≤ lon) (h₂ : lon ≤ 180) :
    lon_int_of lon < BASE ^ 5 :=
  lt_of_le_of_lt (lon_int_le h₁ h₂) (by decide)

/-! ## Decoding an encoded pair of fields -/

lemma decode_fields (a b : Nat) (ha : a < BASE ^ 5) (hb : b < BASE ^ 5) :
    decode (int_to_base29 a 5 ++ int_to_base29 b 5) =
      .ok ((a : ℚ) / (2 ^ 24 - 1) * 180 - 90,
           (b : ℚ) / (2 ^ 24 - 1) * 360 - 180) := by
  have hlen : (int_to_base29 a 5).length = 5 := int_to_base29_length a 5
  have hlen10 : (int_to_base29 a 5 ++ int_to_base29 b 5).length = 10 := by
    simp [int_to_base29_length]
  unfold decode
  rw [if_neg (by omega)]
  rw [List.take_left' hlen, List.drop_left' hlen]
  rw [base29_to_int_int_to_base29 a 5 ha, base29_to_int_int_to_base29 b 5 hb]
  rfl

lemma encode_ok {lat lon : ℚ} (h₁ : -90 ≤ lat) (h₂ : lat ≤ 90)
    (h₃ : -180 ≤ lon) (h₄ : lon ≤ 180) :
    encode lat lon =
      .ok (int_to_base29 (lat_int_of lat) 5 ++ int_to_base29 (lon_int_of lon) 5) := by
  unfold encode
  rw [if_neg (by tauto), if_neg (by tauto)]

/-! ## The quantization error bound -/

lemma lat_back_close {lat : ℚ} (h₁ : -90 ≤ lat) (h₂ : lat ≤ 90) :
    |(lat_int_of lat : ℚ) / (2 ^ 24 - 1) * 180 - 90 - lat| ≤ 180 / (2 ^ 24 - 1) := by
  set z : ℚ := lat_norm_of lat * (2 ^ 24 - 1) with hz
  have hfl : ((lat_int_of lat : ℤ) : ℚ) = (⌊z⌋ : ℚ) := by
    unfold lat_int_of
    rw [Int.toNat_of_nonneg (floor_lat_bounds h₁ h₂).1]
  have hcast : (lat_int_of lat : ℚ) = (⌊z⌋ : ℚ) := by
    exact_mod_cast hfl
  rw [hcast]
  have hle : (⌊z⌋ : ℚ) ≤ z := Int.floor_le z
  have hgt : z - 1 < (⌊z⌋ : ℚ) := Int.sub_one_lt_floor z
  have hlat : lat = lat_norm_of lat * 180 - 90 := by
    unfold lat_norm_of
    field_simp
  rw [abs_le]
  constructor
  · nlinarith [hz]
  · nlinarith [hz]

lemma lon_back_close {lon : ℚ} (h₃ : -180 ≤ lon) (h₄ : lon ≤ 180) :
    |(lon_int_of lon : ℚ) / (2 ^ 24 - 1) * 360 - 180 - lon| ≤ 360 / (2 ^ 24 - 1) := by
  set z : ℚ := lon_norm_of lon * (2 ^ 24 - 1) with hz
  have hfl : ((lon_int_of lon : ℤ) : ℚ) = (⌊z⌋ : ℚ) := by
    unfold lon_int_of
    rw [Int.toNat_of_nonneg (floor_lon_bounds h₃ h₄).1]
  have hcast : (lon_int_of lon : ℚ) = (⌊z⌋ : ℚ) := by
    exact_mod_cast hfl
  rw [hcast]
  have hle : (⌊z⌋ : ℚ) ≤ z := Int.floor_le z
  have hgt : z - 1 < (⌊z⌋ : ℚ) := Int.sub_one_lt_floor z
  have hlon : lon = lon_norm_of lon * 360 - 180 := by
    unfold lon_norm_of
    field_simp
  rw [abs_le]
  constructor
  · nlinarith [hz]
  · nlinarith [hz]

lemma decode_eq_bind (code : List Char) (h : code.length = 10) :
    decode code =
      (base29_to_int (code.take 5)).bind fun lat_int =>
        (base29_to_int (code.drop 5)).bind fun lon_int =>
          .ok ((lat_int : ℚ) / (2 ^ 24 - 1) * 180 - 90,
               (lon_int : ℚ) / (2 ^ 24 - 1) * 360 - 180) := by
  unfold decode
  rw [if_neg (by omega)]
  rfl

lemma calculate_error_eq (g : ℚ × ℚ → ℚ × ℚ → ℚ) (lat lon : ℚ) :
    calculate_error g lat lon =
      (encode lat lon).bind fun code =>
        (decode code).bind fun p => .ok (g (lat, lon) p) := rfl

example : BASE = 29 := by decide

example : int_to_base29 0 5 = ['A', 'A', 'A', 'A', 'A'] := by decide

example : base29_to_int ['A', 'A', 'A', 'A', 'B'] = .ok 1 := by decide

example : encode 0 0 =
    .ok (int_to_base29 8388607 5 ++ int_to_base29 8388607 5) := by decide

/-! ## Claim theorems -/

/-- C1: for every integer `n` in `[0, 2^24-1]`, decoding the 5-symbol base-29
string produced for `n` returns `n`: `base29_to_int(int_to_base29(n, 5)) == n`. -/
theorem claim_C1_codec_bijection (n : Nat) (h : n ≤ 2 ^ 24 - 1) :
    base29_to_int (int_to_base29 n 5) = .ok n :=
  base29_to_int_int_to_base29 n 5 (lt_of_le_of_lt h (by decide))

theorem claim_C1_codec_bijection_witness :
    16777215 ≤ 2 ^ 24 - 1 ∧
      base29_to_int (int_to_base29 16777215 5) = .ok 16777215 :=
  ⟨by decide, claim_C1_codec_bijection 16777215 (by decide)⟩

/-- C2: for every `lat` in `[-90, 90]` and `lon` in `[-180, 180]`,
`encode(lat, lon)` returns the concatenation of the 5-symbol field for
`latInt = floor(((lat + 90) / 180) * (2^24 - 1))` followed by the 5-symbol
field for `lonInt = floor(((lon + 180) / 360) * (2^24 - 1))`, latitude field
first (both floors being nonnegative, so that `Int.toNat` is lossless). -/
theorem claim_C2_encode_structure (lat lon : ℚ)
    (h₁ : -90 ≤ lat) (h₂ : lat ≤ 90) (h₃ : -180 ≤ lon) (h₄ : lon ≤ 180) :
    0 ≤ ⌊(lat + 90) / 180 * (2 ^ 24 - 1)⌋ ∧
    0 ≤ ⌊(lon + 180) / 360 * (2 ^ 24 - 1)⌋ ∧
    encode lat lon =
      .ok (int_to_base29 (⌊(lat + 90) / 180 * (2 ^ 24 - 1)⌋).toNat 5 ++
           int_to_base29 (⌊(lon + 180) / 360 * (2 ^ 24 - 1)⌋).toNat 5) :=
  ⟨(floor_lat_bounds h₁ h₂).1, (floor_lon_bounds h₃ h₄).1, encode_ok h₁ h₂ h₃ h₄⟩

theorem claim_C2_encode_structure_witness :
    0 ≤ ⌊((37 : ℚ) + 90) / 180 * (2 ^ 24 - 1)⌋ ∧
    0 ≤ ⌊((-122 : ℚ) + 180) / 360 * (2 ^ 24 - 1)⌋ ∧
    encode 37 (-122) =
      .ok (int_to_base29 (⌊((37 : ℚ) + 90) / 180 * (2 ^ 24 - 1)⌋).toNat 5 ++
           int_to_base29 (⌊((-122 : ℚ) + 180) / 360 * (2 ^ 24 - 1)⌋).toNat 5) :=
  claim_C2_encode_structure 37 (-122) (by decide) (by decide) (by decide) (by decide)

/-- C7: `int_to_base29` truncates rather than fails on overflow: for every
`n` and positive `length`, it returns exactly `length` symbols and equals
`int_to_base29 (n % 29 ^ length) length`; no error is possible. -/
theorem claim_C7_truncation (n l : Nat) (h : 0 < l) :
    (int_to_base29 n l).length = l ∧
      int_to_base29 n l = int_to_base29 (n % 29 ^ l) l := by
  refine ⟨int_to_base29_length n l, ?_⟩
  exact congrArg List.reverse (int_to_base29_chars_mod l n).symm

theorem claim_C7_truncation_witness :
    0 < 5 ∧
      ((int_to_base29 20511156 5).length = 5 ∧
        int_to_base29 20511156 5 = int_to_base29 (20511156 % 29 ^ 5) 5) :=
  ⟨by decide, claim_C7_truncation 20511156 5 (by decide)⟩

/-- C8: for every in-range `lat` and `lon`, `encode` succeeds with a code of
length exactly 10 whose characters all belong to the 29-symbol alphabet. -/
theorem claim_C8_length_alphabet (lat lon : ℚ)
    (h₁ : -90 ≤ lat) (h₂ : lat ≤ 90) (h₃ : -180 ≤ lon) (h₄ : lon ≤ 180) :
    ∃ code, encode lat lon = .ok code ∧ code.length = 10 ∧
      ∀ c ∈ code, c ∈ CHARSET := by
  refine ⟨_, encode_ok h₁ h₂ h₃ h₄, by simp [int_to_base29_length], ?_⟩
  intro c hc
  rcases List.mem_append.mp hc with h | h
  · exact int_to_base29_mem _ _ c h
  · exact int_to_base29_mem _ _ c h

theorem claim_C8_length_alphabet_witness :
    ∃ code, encode 90 180 = .ok code ∧ code.length = 10 ∧
      ∀ c ∈ code, c ∈ CHARSET :=
  claim_C8_length_alphabet 90 180 (by decide) (by decide) (by decide) (by decide)

/-- C10: for every in-range `lat` and `lon`, the quantized integers computed
inside `encode` lie in `[0, 2^24 - 1]` (floors nonnegative, values at most
`2^24 - 1`) and hence strictly below `29^5`, so both `int_to_base29 · 5`
calls stay inside the bijective 5-digit domain and never truncate. -/
theorem claim_C10_quantized_in_domain (lat lon : ℚ)
    (h₁ : -90 ≤ lat) (h₂ : lat ≤ 90) (h₃ : -180 ≤ lon) (h₄ : lon ≤ 180) :
    0 ≤ ⌊lat_norm_of lat * (2 ^ 24 - 1)⌋ ∧ lat_int_of lat ≤ 2 ^ 24 - 1 ∧
      lat_int_of lat < 29 ^ 5 ∧
    0 ≤ ⌊lon_norm_of lon * (2 ^ 24 - 1)⌋ ∧ lon_int_of lon ≤ 2 ^ 24 - 1 ∧
      lon_int_of lon < 29 ^ 5 :=
  ⟨(floor_lat_bounds h₁ h₂).1, lat_int_le h₁ h₂, lat_int_lt_pow h₁ h₂,
   (floor_lon_bounds h₃ h₄).1, lon_int_le h₃ h₄, lon_int_lt_pow h₃ h₄⟩

theorem claim_C10_quantized_in_domain_witness :
    0 ≤ ⌊lat_norm_of 90 * (2 ^ 24 - 1)⌋ ∧ lat_int_of 90 ≤ 2 ^ 24 - 1 ∧
      lat_int_of 90 < 29 ^ 5 ∧
    0 ≤ ⌊lon_norm_of 180 * (2 ^ 24 - 1)⌋ ∧ lon_int_of 180 ≤ 2 ^ 24 - 1 ∧
      lon_int_of 180 < 29 ^ 5 :=
  claim_C10_quantized_in_domain 90 180 (by decide) (by decide) (by decide) (by decide)

/-- C3: for every in-range `lat` and `lon`, the round-trip
`decode(encode(lat, lon))` succeeds and differs from the original by at most
one quantization bucket per axis: `|lat' - lat| ≤ 180/(2^24-1)` and
`|lon' - lon| ≤ 360/(2^24-1)`. -/
theorem claim_C3_roundtrip_error_bound (lat lon : ℚ)
    (h₁ : -90 ≤ lat) (h₂ : lat ≤ 90) (h₃ : -180 ≤ lon) (h₄ : lon ≤ 180) :
    ∃ code p, encode lat lon = .ok code ∧ decode code = .ok p ∧
      |p.1 - lat| ≤ 180 / (2 ^ 24 - 1) ∧ |p.2 - lon| ≤ 360 / (2 ^ 24 - 1) :=
  ⟨_, _, encode_ok h₁ h₂ h₃ h₄,
   decode_fields _ _ (lat_int_lt_pow h₁ h₂) (lon_int_lt_pow h₃ h₄),
   lat_back_close h₁ h₂, lon_back_close h₃ h₄⟩

theorem claim_C3_roundtrip_error_bound_witness :
    ∃ code p, encode 37 (-122) = .ok code ∧ decode code = .ok p ∧
      |p.1 - 37| ≤ 180 / (2 ^ 24 - 1) ∧ |p.2 - (-122)| ≤ 360 / (2 ^ 24 - 1) :=
  claim_C3_roundtrip_error_bound 37 (-122) (by decide) (by decide) (by decide) (by decide)

/-- C4: `encode(lat, lon)` fails if and only if `lat` is outside `[-90, 90]`
or `lon` is outside `[-180, 180]` (bounds inclusive), the failure is always
one of the two out-of-range errors, and for in-range inputs it never
raises. -/
theorem claim_C4_encode_error_iff (lat lon : ℚ) :
    ((∃ e, encode lat lon = .error e) ↔
        ¬(-90 ≤ lat ∧ lat ≤ 90) ∨ ¬(-180 ≤ lon ∧ lon ≤ 180)) ∧
    ∀ e, encode lat lon = .error e →
      e = .latOutOfRange ∨ e = .lonOutOfRange := by
  by_cases hla : -90 ≤ lat ∧ lat ≤ 90 <;>
    by_cases hlo : -180 ≤ lon ∧ lon ≤ 180 <;>
      simp [encode, hla, hlo]

theorem claim_C4_encode_error_iff_witness :
    ∃ e, encode 91 0 = .error e :=
  (claim_C4_encode_error_iff 91 0).1.mpr (Or.inl (by decide))

/-- C5: `decode` fails with the invalid-length error exactly when the code is
not 10 symbols long (so the length check precedes any symbol check), and a
10-symbol code fails with an invalid-symbol error exactly when some character
lies outside the 29-symbol alphabet. -/
theorem claim_C5_decode_errors (code : List Char) :
    (decode code = .error .invalidLength ↔ code.length ≠ 10) ∧
    (code.length = 10 →
      ((∃ c, decode code = .error (.invalidSymbol c)) ↔
        ∃ c ∈ code, c ∉ CHARSET)) := by
  constructor
  · constructor
    · intro h
      by_contra hlen
      rw [decode_eq_bind code hlen] at h
      cases hpa : base29_to_int (code.take 5) with
      | error e =>
        obtain ⟨c, _, _, rfl⟩ := base29_to_int_loop_error_elim hpa
        rw [hpa] at h
        simp [Except.bind] at h
      | ok a =>
        cases hpb : base29_to_int (code.drop 5) with
        | error e =>
          obtain ⟨c, _, _, rfl⟩ := base29_to_int_loop_error_elim hpb
          rw [hpa, hpb] at h
          simp [Except.bind] at h
        | ok b =>
          rw [hpa, hpb] at h
          simp [Except.bind] at h
    · intro h
      simp [decode, h]
  · intro hlen
    constructor
    · rintro ⟨c, hc⟩
      rw [decode_eq_bind code hlen] at hc
      cases hpa : base29_to_int (code.take 5) with
      | error e =>
        rw [hpa] at hc
        simp only [Except.bind] at hc
        obtain ⟨d, hd, hd2, hd3⟩ := base29_to_int_loop_error_elim hpa
        exact ⟨d, List.take_subset 5 code hd, hd2⟩
      | ok a =>
        cases hpb : base29_to_int (code.drop 5) with
        | error e =>
          rw [hpa, hpb] at hc
          simp only [Except.bind] at hc
          obtain ⟨d, hd, hd2, hd3⟩ := base29_to_int_loop_error_elim hpb
          exact ⟨d, List.drop_subset 5 code hd, hd2⟩
        | ok b =>
          rw [hpa, hpb] at hc
          simp [Except.bind] at hc
    · rintro ⟨c, hc, hc2⟩
      rw [decode_eq_bind code hlen]
      rcases List.mem_append.mp ((List.take_append_drop 5 code).symm ▸ hc) with h | h
      · obtain ⟨d, hd⟩ := base29_to_int_loop_error_intro 0 (code.take 5) ⟨c, h, hc2⟩
        exact ⟨d, by simp [base29_to_int, hd, Except.bind]⟩
      · by_cases hall : ∀ d ∈ code.take 5, d ∈ CHARSET
        · obtain ⟨m, hm⟩ := base29_to_int_loop_ok 0 (code.take 5) hall
          obtain ⟨d, hd⟩ := base29_to_int_loop_error_intro 0 (code.drop 5) ⟨c, h, hc2⟩
          exact ⟨d, by simp [base29_to_int, hm, hd, Except.bind]⟩
        · push_neg at hall
          obtain ⟨d', hd', hd'2⟩ := hall
          obtain ⟨d, hd⟩ := base29_to_int_loop_error_intro 0 (code.take 5) ⟨d', hd', hd'2⟩
          exact ⟨d, by simp [base29_to_int, hd, Except.bind]⟩

theorem claim_C5_decode_errors_witness :
    ∃ c, decode ['A', 'A', 'A', 'A', 'A', 'A', 'A', 'A', 'A', 'I'] =
      .error (.invalidSymbol c) :=
  ((claim_C5_decode_errors ['A', 'A', 'A', 'A', 'A', 'A', 'A', 'A', 'A', 'I']).2
    (by decide)).mpr ⟨'I', by decide, by decide⟩

/-- C6: `decode` does not re-validate the decoded integers against the
24-bit range: the 10-symbol code `"99999AAAAA"`, drawn entirely from the
alphabet, decodes without error to a latitude strictly greater than 90. -/
theorem claim_C6_no_range_revalidation :
    (['9', '9', '9', '9', '9', 'A', 'A', 'A', 'A', 'A'] : List Char).length = 10 ∧
    (∀ c ∈ (['9', '9', '9', '9', '9', 'A', 'A', 'A', 'A', 'A'] : List Char),
      c ∈ CHARSET) ∧
    decode ['9', '9', '9', '9', '9', 'A', 'A', 'A', 'A', 'A'] =
      .ok (20511148 / 16777215 * 180 - 90, -180) ∧
    (90 : ℚ) < 20511148 / 16777215 * 180 - 90 := by
  refine ⟨by decide, by decide, by decide, by decide⟩

/-- C9: `calculate_error` hands the original and round-tripped coordinates
to the external geodesic-distance collaborator and returns its value
unchanged for in-range inputs, and propagates any `encode` failure
unchanged. -/
theorem claim_C9_error_estimator (g : ℚ × ℚ → ℚ × ℚ → ℚ) (lat lon : ℚ) :
    ((-90 ≤ lat ∧ lat ≤ 90 ∧ -180 ≤ lon ∧ lon ≤ 180) →
      ∃ code p, encode lat lon = .ok code ∧ decode code = .ok p ∧
        calculate_error g lat lon = .ok (g (lat, lon) p)) ∧
    ∀ e, encode lat lon = .error e → calculate_error g lat lon = .error e := by
  constructor
  · rintro ⟨h₁, h₂, h₃, h₄⟩
    refine ⟨_, _, encode_ok h₁ h₂ h₃ h₄,
      decode_fields _ _ (lat_int_lt_pow h₁ h₂) (lon_int_lt_pow h₃ h₄), ?_⟩
    rw [calculate_error_eq, encode_ok h₁ h₂ h₃ h₄]
    simp only [Except.bind]
    rw [decode_fields _ _ (lat_int_lt_pow h₁ h₂) (lon_int_lt_pow h₃ h₄)]
  · intro e he
    rw [calculate_error_eq, he]
    rfl

theorem claim_C9_error_estimator_witness :
    ∃ code p, encode 0 0 = .ok code ∧ decode code = .ok p ∧
      calculate_error (fun _ _ => (7 : ℚ)) 0 0 =
        .ok ((fun _ _ => (7 : ℚ)) ((0 : ℚ), (0 : ℚ)) p) :=
  (claim_C9_error_estimator (fun _ _ => (7 : ℚ)) 0 0).1
    ⟨by decide, by decide, by decide, by decide⟩

end NewCodeGeo
